import Mathlib

set_option maxHeartbeats 1000000
set_option maxRecDepth 4000

/-!
Shallow embedding of the osv-scalibr filesystem extraction engine:
the walker and extractor dispatcher of src/extractor/filesystem/extractor.go,
the homebrew receipt extractor bundled with it, and the CLI capability gate
of the cli package.  Paths are modelled as Lean strings (character-level,
which coincides with Go's byte-level operations on the ASCII paths involved),
Go maps keyed by plugin name as functions from String, and fallible
operations as Except values.  All definitions are executable so that concrete
runs evaluate by decide.
-/

/-- Character-level prefix test, modelling Go strings.HasPrefix. -/
def strHasPrefix (s pre : String) : Bool :=
  pre.data.isPrefixOf s.data

/-- True when the path is absolute, modelling strings.HasPrefix(path, sep). -/
def isAbsPath (s : String) : Bool :=
  strHasPrefix s ("/")

/-- Splits a character list on the path separator, keeping empty segments,
modelling strings.Split(s, sep). -/
def splitSlashAux : List Char → List Char → List String
  | [], acc => [String.mk acc.reverse]
  | c :: cs, acc =>
    if c = '/' then String.mk acc.reverse :: splitSlashAux cs []
    else splitSlashAux cs (c :: acc)

/-- Splits a string on the path separator, keeping empty segments. -/
def splitSlash (s : String) : List String :=
  splitSlashAux s.data []

/-- Path components after separator normalization: the non-empty, non-dot
segments.  For slash-normalized paths without dot-dot elements this is the
component list of filepath.Clean of the path. -/
def components (s : String) : List String :=
  (splitSlash s).filter (fun c => !(c == ("")) && !(c == (".")))

/-- Length of the longest common component run, corresponding to the loop in
Go filepath.Rel that positions base and target at their first differing
path elements. -/
def commonLen : List String → List String → Nat
  | a :: as, b :: bs => if a = b then commonLen as bs + 1 else 0
  | _, _ => 0

/-- Joins components back with the path separator. -/
def joinSep : List String → String
  | [] => ("")
  | [x] => x
  | x :: xs => x ++ ("/") ++ joinSep xs

/-- Errors produced during path resolution. -/
inductive PathErr where
  /-- ErrNotRelativeToScanRoots of the extractor package. -/
  | notRelativeToScanRoots
  /-- An error returned by filepath.Rel itself. -/
  | relErr
  deriving DecidableEq

/-- Models Go filepath.Rel restricted to slash-separated paths: both paths
are reduced to their cleaned component lists, the common leading run is
dropped, and the remaining base components are replaced by dot-dot steps
ahead of the remaining target components.  Rel fails when exactly one of the
two paths is absolute or when the first differing base component is a
dot-dot element, as in the Go source. -/
def relGo (base targ : String) : Except PathErr String :=
  if isAbsPath base ≠ isAbsPath targ then .error .relErr
  else
    let b := components base
    let t := components targ
    if b = t then .ok (".")
    else
      let n := commonLen b t
      let b2 := b.drop n
      let t2 := t.drop n
      if b2.head? = some ("..") then .error .relErr
      else .ok (joinSep (List.replicate b2.length ("..") ++ t2))

/-- Models stripFromAtLeastOnePrefix of extractor.go: the path is made
relative to the first listed root that is a string prefix of it; if no root
matches, ErrNotRelativeToScanRoots is returned. -/
def stripFromAtLeastOnePre (path : String) : List String → Except PathErr String
  | [] => .error .notRelativeToScanRoots
  | pre :: rest =>
    if strHasPrefix path pre then relGo pre path
    else stripFromAtLeastOnePre path rest

/-- Models stripAllPathPrefixes of extractor.go over already-absolute
candidate paths (filepath.Abs is the identity on cleaned absolute paths). -/
def stripAllPathPre (paths pres : List String) : Except PathErr (List String) :=
  paths.mapM (fun p => stripFromAtLeastOnePre p pres)

/-- File type of a directory entry or stat result, the relevant cases of
Go fs.FileMode type bits. -/
inductive FType where
  | dir
  | regular
  | symlink
  | special
  deriving DecidableEq

/-- File metadata as far as the engine consumes it. -/
abbrev FInfoM := FType

/-- One entry yielded by the filesystem traversal: the path relative to the
scan root, the directory-entry type, and the I/O error the filesystem
reported for this entry, if any.  Whether the error is a permission error
only selects the log level in the source, which does not affect control
flow, so a plain option suffices. -/
structure FileEntry where
  path : String
  ftype : FType
  fserr : Option String
  deriving DecidableEq

/-- A discovered software artifact, modelling extractor.Inventory.  The
extractor field carries the originating plugin's name; the engine sets it
after extraction. -/
structure Inventory where
  name : String
  version : String
  locations : List String
  extractor : Option String
  deriving DecidableEq

/-- The input handed to a filesystem extractor, modelling
filesystem.ScanInput (the open reader is not modelled separately: an
extractor in this embedding is a pure function of the input record). -/
structure ScanInputM where
  path : String
  scanRoot : String
  info : FInfoM

/-- The outcome of one Extract call: the returned inventory slice, the
returned error, and whether the scan context got cancelled asynchronously
while this call was running (the cancellation becomes observable through
ctx.Err() after the call returns). -/
structure ExtractOut where
  results : List Inventory
  err : Option String
  cancels : Bool

/-- A filesystem extractor plugin, modelling the filesystem.Extractor
interface. -/
structure ExtractorM where
  name : String
  version : Nat
  fileRequired : String → FInfoM → Bool
  extract : ScanInputM → ExtractOut

/-- The filesystem handle as the engine consumes it: per-path results of
fs.Stat through the handle, of Open, and of Stat on the open file. -/
structure FSModel where
  statRes : String → Except String FInfoM
  openRes : String → Except String Unit
  openStatRes : String → Except String FInfoM

/-- The fatal errors that can end a walk: the inode-budget error of
handleFile and a cancelled scan context. -/
inductive FatalErr where
  | inodeBudgetExceeded (max : Nat)
  | cancelledErr
  deriving DecidableEq

/-- Engine-internal state for one run, modelling walkContext.  The error
and found-inventory maps are functions from plugin name; the status-printing
timestamps only feed log output and are omitted. -/
structure WalkContext where
  extractors : List ExtractorM
  fsys : FSModel
  scanRoot : String
  dirsToSkip : List String
  skipDirRegex : Option (String → Bool)
  readSymlinks : Bool
  maxInodes : Nat
  inodesVisited : Nat
  storeAbsolutePath : Bool
  cancelled : Bool
  inventory : List Inventory
  errors : String → Option String
  foundInv : String → Bool
  extractCalls : Nat

/-- Models addErrToMap of extractor.go: the first error for a key is stored
as is, later errors are chained onto the previous one with a newline, as
fmt.Errorf with two wrapped errors renders them. -/
def addErrToMap (errors : String → Option String) (key : String) (err : String) :
    String → Option String :=
  fun k =>
    if k = key then
      match errors key with
      | none => some err
      | some prev => some (prev ++ ("\n") ++ err)
    else errors k

/-- Models shouldSkipDir of extractor.go: membership in the skip set, then
the optional skip regex (the compiled regex is abstracted as a predicate). -/
def shouldSkipDir (wc : WalkContext) (path : String) : Bool :=
  if path ∈ wc.dirsToSkip then true
  else
    match wc.skipDirRegex with
    | some re => re path
    | none => false

/-- Models expandAbsolutePath of extractor.go; filepath.Join on a cleaned
absolute root and a cleaned relative location is their slash concatenation. -/
def expandAbsolutePath (scanRoot : String) (paths : List String) : List String :=
  paths.map (fun l => scanRoot ++ ("/") ++ l)

/-- Models runExtractor of extractor.go: skip when FileRequired is false;
record an Open or Stat failure and skip; otherwise count the extract call,
run Extract, record its error if any, and append any returned inventory with
the originating plugin set (and locations made absolute when configured),
marking the plugin as having found inventory.  Asynchronous cancellation
during the Extract call is merged into the context flag after the call;
nothing in this function consults the flag. -/
def runExtractor (wc : WalkContext) (ex : ExtractorM) (path : String)
    (fileinfo : FInfoM) : WalkContext :=
  if ex.fileRequired path fileinfo = false then wc
  else
    match wc.fsys.openRes path with
    | .error e =>
      { wc with errors := addErrToMap wc.errors ex.name (("Open(") ++ path ++ ("): ") ++ e) }
    | .ok _ =>
      match wc.fsys.openStatRes path with
      | .error e =>
        { wc with errors := addErrToMap wc.errors ex.name (("stat(") ++ path ++ ("): ") ++ e) }
      | .ok info =>
        let out := ex.extract { path := path, scanRoot := wc.scanRoot, info := info }
        let errors1 :=
          match out.err with
          | some e => addErrToMap wc.errors ex.name (path ++ (": ") ++ e)
          | none => wc.errors
        let wc1 := { wc with
          extractCalls := wc.extractCalls + 1,
          cancelled := wc.cancelled || out.cancels,
          errors := errors1 }
        if out.results.length > 0 then
          { wc1 with
            foundInv := fun n => if n = ex.name then true else wc.foundInv n,
            inventory := wc.inventory ++ out.results.map (fun r =>
              { r with
                extractor := some ex.name,
                locations :=
                  if wc.storeAbsolutePath then expandAbsolutePath wc.scanRoot r.locations
                  else r.locations }) }
        else wc1

/-- Result of one handleFile invocation: continue the walk, prune the
subtree of the current directory (fs.SkipDir), or end the walk with a fatal
error. -/
inductive HandleRes where
  | cont
  | skipDirRes
  | fatal (e : FatalErr)
  deriving DecidableEq

/-- Models handleFile of extractor.go, in source order: printStatus (log
only, omitted), increment inodesVisited, inode-budget check, metrics hook
(omitted), cancellation check, swallowed filesystem error, directory skip
test, non-regular-file filtering, re-stat, and the extractor dispatch loop. -/
def handleFile (wc0 : WalkContext) (e : FileEntry) : WalkContext × HandleRes :=
  let wc := { wc0 with inodesVisited := wc0.inodesVisited + 1 }
  if 0 < wc.maxInodes ∧ wc.maxInodes < wc.inodesVisited then
    (wc, .fatal (.inodeBudgetExceeded wc.maxInodes))
  else if wc.cancelled then (wc, .fatal .cancelledErr)
  else
    match e.fserr with
    | some _ => (wc, .cont)
    | none =>
      if e.ftype = .dir then
        if shouldSkipDir wc e.path then (wc, .skipDirRes) else (wc, .cont)
      else if e.ftype ≠ .regular ∧ (wc.readSymlinks = false ∨ e.ftype ≠ .symlink) then
        (wc, .cont)
      else
        match wc.fsys.statRes e.path with
        | .error _ => (wc, .cont)
        | .ok fileinfo =>
          (wc.extractors.foldl (fun w ex => runExtractor w ex e.path fileinfo) wc, .cont)

/-- Drives handleFile over the pre-order entry listing of the walked tree,
modelling internal.WalkDirUnsorted: a fatal handler error ends the walk, the
SkipDir sentinel suppresses the entries below the current directory.  In a
pre-order listing a skipped subtree is contiguous, so one pending skip path
suffices. -/
def walkFrom : WalkContext → Option String → List FileEntry → WalkContext × Option FatalErr
  | wc, _, [] => (wc, none)
  | wc, skp, e :: rest =>
    if (match skp with
        | some d => strHasPrefix e.path (d ++ ("/"))
        | none => false) then
      walkFrom wc skp rest
    else
      match handleFile wc e with
      | (wc1, .fatal err) => (wc1, some err)
      | (wc1, .skipDirRes) => walkFrom wc1 (some e.path) rest
      | (wc1, .cont) => walkFrom wc1 none rest

/-- A whole filesystem walk from the root of the pre-order listing. -/
def walkEntries (wc : WalkContext) (entries : List FileEntry) :
    WalkContext × Option FatalErr :=
  walkFrom wc none entries

/-- Per-plugin outcome states, modelling plugin.ScanStatus. -/
inductive ScanState where
  | succeeded
  | partiallyFailed
  | noResults
  | failed
  deriving DecidableEq

/-- Per-plugin status record, modelling plugin.Status. -/
structure PluginStatus where
  name : String
  version : Nat
  state : ScanState
  deriving DecidableEq

/-- Modelled from the spec: plugin.StatusFromErr is code of this repository
that is not under src/ (only its caller errToExtractorStatus is).  Per the
specification's truth table it derives the status from whether the plugin
produced inventory and whether an error was recorded: Succeeded on inventory
and no error, PartiallyFailed on inventory and some error, NoResults on no
inventory and no error, Failed on no inventory and some error. -/
def statusFromErr (ex : ExtractorM) (foundInv : Bool) (err : Option String) :
    PluginStatus :=
  { name := ex.name,
    version := ex.version,
    state :=
      match foundInv, err with
      | true, none => .succeeded
      | true, some _ => .partiallyFailed
      | false, none => .noResults
      | false, some _ => .failed }

/-- Models errToExtractorStatus of extractor.go: one status per configured
extractor, from the found-inventory and error maps. -/
def errToExtractorStatus (extractors : List ExtractorM)
    (foundInv : String → Bool) (errors : String → Option String) :
    List PluginStatus :=
  extractors.map (fun ex => statusFromErr ex (foundInv ex.name) (errors ex.name))

/-- Models the tail of RunFS of extractor.go: walk the entries, then return
the accumulated inventory, the per-extractor statuses, and the walk error. -/
def runFS (wc : WalkContext) (entries : List FileEntry) :
    List Inventory × List PluginStatus × Option FatalErr :=
  let r := walkEntries wc entries
  (r.1.inventory, errToExtractorStatus r.1.extractors r.1.foundInv r.1.errors, r.2)

/-- Operating-system tag of plugin.Capabilities. -/
inductive OSTag where
  | anyOS
  | linux
  | mac
  | windows
  deriving DecidableEq

/-- A host (or required) capability record, modelling plugin.Capabilities. -/
structure Capabilities where
  os : OSTag
  network : Bool
  directFS : Bool
  runningSystem : Bool
  deriving DecidableEq

/-- A plugin as far as the capability gate consumes it: its identity and the
capabilities it requires. -/
structure Plug where
  name : String
  version : Nat
  reqs : Capabilities
  deriving DecidableEq

/-- Modelled from the spec: plugin.ValidateRequirements is code of this
repository that is not under src/ (only its caller filterByCapabilities is).
Per the specification it rejects a plugin when its required OS tag is
non-Any and differs from the host's, when it requires network and network is
denied, when it requires direct filesystem access the host cannot provide,
or when it requires the running system and the scan is against an image.
True means the plugin passes the gate. -/
def validateRequirements (req host : Capabilities) : Bool :=
  (req.os == OSTag.anyOS || req.os == host.os) &&
  (!req.network || host.network) &&
  (!req.directFS || host.directFS) &&
  (!req.runningSystem || host.runningSystem)

/-- Models filterByCapabilities of the cli package: each of the three plugin
lists (filesystem extractors, standalone extractors, detectors) keeps
exactly the plugins whose requirements validate against the host
capabilities. -/
def filterByCapabilities (f s d : List Plug) (capab : Capabilities) :
    List Plug × List Plug × List Plug :=
  (f.filter (fun ex => validateRequirements ex.reqs capab),
   s.filter (fun ex => validateRequirements ex.reqs capab),
   d.filter (fun det => validateRequirements det.reqs capab))

/-- Regular-expression syntax, as much as the homebrew path pattern needs:
single-character predicates, literals, the word-boundary assertion,
concatenation, alternation, and one-or-more repetition. -/
inductive RE where
  | cls (p : Char → Bool)
  | lit (s : List Char)
  | wb
  | cat (a b : RE)
  | alt (a b : RE)
  | plus (a : RE)

/-- Go regexp word characters: ASCII letters, digits and underscore. -/
def isWordChar (c : Char) : Bool :=
  c.isAlphanum || c == '_'

/-- The word-boundary test between the previous character (none at the start
of the input) and the rest of the input. -/
def wordBoundary (prev : Option Char) (cs : List Char) : Bool :=
  let left := match prev with
    | none => false
    | some c => isWordChar c
  let right := match cs with
    | [] => false
    | c :: _ => isWordChar c
  left != right

/-- Matches a literal at the front of the input, returning the state after
the match: the new previous character and the remaining input. -/
def matchLit : List Char → Option Char → List Char → List (Option Char × List Char)
  | [], prev, cs => [(prev, cs)]
  | _ :: _, _, [] => []
  | l :: ls, _, c :: cs => if c = l then matchLit ls (some c) cs else []

/-- All ways a regular expression can match a front segment of the input;
each result is the state after the match.  The fuel bounds the recursion
depth (each step of a repetition and each subexpression costs one unit);
callers supply ample fuel, so for the fixed homebrew pattern — whose
repetition bodies always consume a character — the fuel never runs out. -/
def matchRE : Nat → RE → Option Char → List Char → List (Option Char × List Char)
  | 0, _, _, _ => []
  | _ + 1, .cls p, _, cs =>
    match cs with
    | [] => []
    | c :: cs1 => if p c then [(some c, cs1)] else []
  | _ + 1, .lit ls, prev, cs => matchLit ls prev cs
  | _ + 1, .wb, prev, cs => if wordBoundary prev cs then [(prev, cs)] else []
  | fuel + 1, .cat a b, prev, cs =>
    (matchRE fuel a prev cs).flatMap (fun pc => matchRE fuel b pc.1 pc.2)
  | fuel + 1, .alt a b, prev, cs =>
    matchRE fuel a prev cs ++ matchRE fuel b prev cs
  | fuel + 1, .plus a, prev, cs =>
    (matchRE fuel a prev cs).flatMap (fun pc => pc :: matchRE fuel (.plus a) pc.1 pc.2)

/-- Unanchored search, modelling Regexp.MatchString: try a match at every
start position, tracking the character before the current position for the
word-boundary assertion. -/
def searchRE (r : RE) : Option Char → List Char → Bool
  | prev, [] => !(matchRE 64 r prev []).isEmpty
  | prev, c :: cs =>
    !(matchRE ((cs.length + 2) * 64) r prev (c :: cs)).isEmpty || searchRE r (some c) cs

/-- Whether the pattern matches anywhere in the string. -/
def reMatchString (r : RE) (s : String) : Bool :=
  searchRE r none s.data

/-- A literal pattern from a string. -/
def litS (s : String) : RE :=
  .lit s.data

/-- Concatenation of a pattern list (the empty literal is the unit). -/
def cats (l : List RE) : RE :=
  l.foldr RE.cat (.lit [])

/-- The dot metacharacter: any character except newline. -/
def anyCh : RE :=
  .cls (fun c => !(c == '\n'))

/-- One word character. -/
def wCh : RE :=
  .cls isWordChar

/-- The character class excluding ASCII letters, space and slash. -/
def nonAlphaSpaceSlash : RE :=
  .cls (fun c => !c.isAlpha && !(c == ' ') && !(c == '/'))

/-- The homebrew path pattern of the homebrew package, transcribed from
its regexp literal: a word-bounded cellar or caskroom segment, a word
segment, a segment without letters, spaces or slashes, then either a
word-bounded install receipt file name (with dot as any character) or a
wrapper script file name. -/
def homebrewRE : RE :=
  cats [
    .alt (cats [.wb, litS ("cellar")]) (cats [.wb, litS ("caskroom")]),
    litS ("/"), .plus wCh,
    litS ("/"), .plus nonAlphaSpaceSlash,
    litS ("/"),
    .alt (cats [.wb, litS ("install_receipt"), anyCh, litS ("json")])
         (cats [.plus wCh, anyCh, .wb, litS ("wrapper"), anyCh, litS ("sh")])]

/-- ASCII lowercasing of a string, modelling strings.ToLower on the ASCII
paths involved. -/
def toLowerStr (s : String) : String :=
  String.mk (s.data.map Char.toLower)

/-- Substring test on character lists. -/
def listContainsSub (sub : List Char) : List Char → Bool
  | [] => sub.isEmpty
  | c :: cs => sub.isPrefixOf (c :: cs) || listContainsSub sub cs

/-- Models strings.Contains. -/
def strContains (s sub : String) : Bool :=
  listContainsSub sub.data s.data

/-- Homebrew package path components, modelling the BrewPath struct. -/
structure BrewPath where
  appName : String
  appVersion : String
  appFile : String
  deriving DecidableEq

/-- Models SplitPath of the homebrew package: the last three slash-separated
segments of the path, lowercased.  The Go code indexes from the end and is
only called on paths with at least three separators; out-of-range indices
default to the empty string here. -/
def SplitPath (path : String) : BrewPath :=
  let pathParts := splitSlash path
  { appName := toLowerStr (pathParts.getD (pathParts.length - 3) ("")),
    appVersion := toLowerStr (pathParts.getD (pathParts.length - 2) ("")),
    appFile := toLowerStr (pathParts.getD (pathParts.length - 1) ("")) }

/-- Models FileRequired of the homebrew extractor: the lowercased path must
match the homebrew pattern, and the file segment must be the install receipt
name under a cellar path, or the app wrapper name under a caskroom path. -/
def hbFileRequired (path : String) (_ : FInfoM) : Bool :=
  let filePath := toLowerStr path
  if !(reMatchString homebrewRE filePath) then false
  else
    let p := SplitPath filePath
    if strContains filePath ("cellar") && !(p.appFile == ("install_receipt.json")) then false
    else if strContains filePath ("caskroom") &&
        !(p.appFile == (p.appName ++ (".wrapper.sh"))) then false
    else true

/-- Models Extract of the homebrew extractor: one inventory record from the
path components of the scan input path. -/
def hbExtract (input : ScanInputM) : ExtractOut :=
  let p := SplitPath input.path
  { results := [{ name := p.appName,
                  version := p.appVersion,
                  locations := [input.path],
                  extractor := none }],
    err := none,
    cancels := false }

/-- The homebrew receipt extractor as an engine plugin. -/
def homebrewExtractor : ExtractorM :=
  { name := ("os/homebrew"),
    version := 0,
    fileRequired := hbFileRequired,
    extract := hbExtract }

/-- A filesystem handle on which every operation succeeds and every path
stats as a regular file. -/
def okFS : FSModel :=
  { statRes := fun _ => .ok FType.regular,
    openRes := fun _ => .ok (),
    openStatRes := fun _ => .ok FType.regular }

/-- A fresh walk context with no extractors and default configuration, the
starting point for the concrete runs below. -/
def baseWC : WalkContext :=
  { extractors := [],
    fsys := okFS,
    scanRoot := ("/tmp/fixtures/A"),
    dirsToSkip := [],
    skipDirRegex := none,
    readSymlinks := false,
    maxInodes := 0,
    inodesVisited := 0,
    storeAbsolutePath := false,
    cancelled := false,
    inventory := [],
    errors := fun _ => none,
    foundInv := fun _ => false,
    extractCalls := 0 }

/-- A directory entry without filesystem error. -/
def mkDir (p : String) : FileEntry :=
  { path := p, ftype := .dir, fserr := none }

/-- A regular-file entry without filesystem error. -/
def mkFile (p : String) : FileEntry :=
  { path := p, ftype := .regular, fserr := none }

/-- The filesystem of the single-cellar-entry scenario: the receipt path is
a regular file, everything else on the walk is a directory. -/
def fs9 : FSModel :=
  { statRes := fun p =>
      if p == ("cellar/tree/1.1/install_receipt.json") then .ok FType.regular
      else .ok FType.dir,
    openRes := fun _ => .ok (),
    openStatRes := fun _ => .ok FType.regular }

/-- Walk context of the single-cellar-entry scenario: the homebrew receipt
extractor is the sole active extractor. -/
def wc9 : WalkContext :=
  { baseWC with extractors := [homebrewExtractor], fsys := fs9 }

/-- Pre-order entry listing of the single-cellar-entry tree. -/
def entries9 : List FileEntry :=
  [mkDir ("."), mkDir ("cellar"), mkDir ("cellar/tree"), mkDir ("cellar/tree/1.1"),
   mkFile ("cellar/tree/1.1/install_receipt.json")]

/-- An extractor during whose (only) Extract call the scan context gets
cancelled; it returns no inventory and no error. -/
def exACancel : ExtractorM :=
  { name := ("A"), version := 0,
    fileRequired := fun _ _ => true,
    extract := fun _ => { results := [], err := none, cancels := true } }

/-- A second extractor that wants every file and returns one inventory
record. -/
def exBAfter : ExtractorM :=
  { name := ("B"), version := 0,
    fileRequired := fun _ _ => true,
    extract := fun inp =>
      { results := [{ name := ("b-pkg"), version := ("1"),
                      locations := [inp.path], extractor := none }],
        err := none, cancels := false } }

/-- Walk context with the cancelling extractor dispatched before a second
extractor on the same file. -/
def wcC3 : WalkContext :=
  { baseWC with extractors := [exACancel, exBAfter] }

/-- Walk context with an inode budget of two. -/
def wcBudget2 : WalkContext :=
  { baseWC with maxInodes := 2 }

/-- Ten regular-file entries. -/
def entriesTen : List FileEntry :=
  (List.range 10).map (fun i => mkFile (("f") ++ toString i))

/-- An extractor that always fails with an error but still returns one
inventory record, exercising the partial-result path of the dispatcher. -/
def exPartial : ExtractorM :=
  { name := ("E"), version := 0,
    fileRequired := fun _ _ => true,
    extract := fun inp =>
      { results := [{ name := ("pkg"), version := ("1"),
                      locations := [inp.path], extractor := none }],
        err := some ("boom"), cancels := false } }

/-- Placeholder extractor for out-of-range list indexing. -/
def dummyEx : ExtractorM :=
  { name := (""), version := 0,
    fileRequired := fun _ _ => false,
    extract := fun _ => { results := [], err := none, cancels := false } }

/-- Placeholder status for out-of-range list indexing. -/
def dummyStatus : PluginStatus :=
  { name := (""), version := 0, state := .noResults }

/-- The newline-joined chain obtained by recording first err0 and then the
listed errors, in order. -/
def chainMsg (err0 : String) (rest : List String) : String :=
  rest.foldl (fun a e => a ++ ("\n") ++ e) err0

/-- Records a sequence of errors for one plugin, in order. -/
def recordErrs (m : String → Option String) (key : String) (errs : List String) :
    String → Option String :=
  errs.foldl (fun m2 e => addErrToMap m2 key e) m

/-- A directory entry for which the filesystem reported a permission
error on listing. -/
def ePerm : FileEntry :=
  { path := ("locked"), ftype := .dir, fserr := some ("permission denied") }

/-- runExtractor only touches the bookkeeping maps, the inventory, the
extract counter and the cancellation flag; every configuration field and the
inode counter pass through unchanged. -/
theorem runExtractor_config (wc : WalkContext) (ex : ExtractorM) (p : String)
    (fi : FInfoM) :
    (runExtractor wc ex p fi).inodesVisited = wc.inodesVisited ∧
    (runExtractor wc ex p fi).maxInodes = wc.maxInodes ∧
    (runExtractor wc ex p fi).extractors = wc.extractors ∧
    (runExtractor wc ex p fi).fsys = wc.fsys ∧
    (runExtractor wc ex p fi).scanRoot = wc.scanRoot ∧
    (runExtractor wc ex p fi).dirsToSkip = wc.dirsToSkip ∧
    (runExtractor wc ex p fi).skipDirRegex = wc.skipDirRegex ∧
    (runExtractor wc ex p fi).readSymlinks = wc.readSymlinks ∧
    (runExtractor wc ex p fi).storeAbsolutePath = wc.storeAbsolutePath := by
  unfold runExtractor
  dsimp only
  repeat' split
  all_goals exact ⟨rfl, rfl, rfl, rfl, rfl, rfl, rfl, rfl, rfl⟩

/-- An extractor whose Extract calls never observe a cancellation leaves the
cancellation flag unchanged. -/
theorem runExtractor_cancelled (wc : WalkContext) (ex : ExtractorM) (p : String)
    (fi : FInfoM) (h : ∀ inp, (ex.extract inp).cancels = false) :
    (runExtractor wc ex p fi).cancelled = wc.cancelled := by
  unfold runExtractor
  dsimp only
  repeat' split
  all_goals first | rfl | simp [h]

/-- The dispatch loop over a list of extractors preserves every
configuration field and the inode counter. -/
theorem foldl_runExtractor_config (l : List ExtractorM) (wc : WalkContext)
    (p : String) (fi : FInfoM) :
    ((l.foldl (fun w ex => runExtractor w ex p fi) wc).inodesVisited = wc.inodesVisited ∧
     (l.foldl (fun w ex => runExtractor w ex p fi) wc).maxInodes = wc.maxInodes ∧
     (l.foldl (fun w ex => runExtractor w ex p fi) wc).extractors = wc.extractors ∧
     (l.foldl (fun w ex => runExtractor w ex p fi) wc).fsys = wc.fsys ∧
     (l.foldl (fun w ex => runExtractor w ex p fi) wc).scanRoot = wc.scanRoot ∧
     (l.foldl (fun w ex => runExtractor w ex p fi) wc).dirsToSkip = wc.dirsToSkip ∧
     (l.foldl (fun w ex => runExtractor w ex p fi) wc).skipDirRegex = wc.skipDirRegex ∧
     (l.foldl (fun w ex => runExtractor w ex p fi) wc).readSymlinks = wc.readSymlinks ∧
     (l.foldl (fun w ex => runExtractor w ex p fi) wc).storeAbsolutePath = wc.storeAbsolutePath) := by
  induction l generalizing wc with
  | nil => exact ⟨rfl, rfl, rfl, rfl, rfl, rfl, rfl, rfl, rfl⟩
  | cons ex l ih =>
    have h1 := runExtractor_config wc ex p fi
    have h2 := ih (runExtractor wc ex p fi)
    simp only [List.foldl_cons]
    obtain ⟨a1, a2, a3, a4, a5, a6, a7, a8, a9⟩ := h1
    obtain ⟨b1, b2, b3, b4, b5, b6, b7, b8, b9⟩ := h2
    exact ⟨b1.trans a1, b2.trans a2, b3.trans a3, b4.trans a4, b5.trans a5,
           b6.trans a6, b7.trans a7, b8.trans a8, b9.trans a9⟩

/-- The dispatch loop leaves the cancellation flag unchanged when none of
the dispatched extractors observes a cancellation. -/
theorem foldl_runExtractor_cancelled (l : List ExtractorM) (wc : WalkContext)
    (p : String) (fi : FInfoM)
    (h : ∀ ex ∈ l, ∀ inp, (ex.extract inp).cancels = false) :
    (l.foldl (fun w ex => runExtractor w ex p fi) wc).cancelled = wc.cancelled := by
  induction l generalizing wc with
  | nil => rfl
  | cons ex l ih =>
    simp only [List.foldl_cons]
    have h1 := runExtractor_cancelled wc ex p fi (h ex (by simp))
    have h2 := ih (runExtractor wc ex p fi) (fun e he inp => h e (by simp [he]) inp)
    exact h2.trans h1

/-- handleFile always increments the inode counter by exactly one, in every
branch, and leaves every configuration field unchanged. -/
theorem handleFile_basic (wc : WalkContext) (e : FileEntry) :
    (handleFile wc e).1.inodesVisited = wc.inodesVisited + 1 ∧
    (handleFile wc e).1.maxInodes = wc.maxInodes ∧
    (handleFile wc e).1.extractors = wc.extractors ∧
    (handleFile wc e).1.fsys = wc.fsys ∧
    (handleFile wc e).1.scanRoot = wc.scanRoot ∧
    (handleFile wc e).1.dirsToSkip = wc.dirsToSkip ∧
    (handleFile wc e).1.skipDirRegex = wc.skipDirRegex ∧
    (handleFile wc e).1.readSymlinks = wc.readSymlinks ∧
    (handleFile wc e).1.storeAbsolutePath = wc.storeAbsolutePath := by
  unfold handleFile
  dsimp only
  repeat' split
  all_goals
    first
    | exact ⟨rfl, rfl, rfl, rfl, rfl, rfl, rfl, rfl, rfl⟩
    | exact foldl_runExtractor_config wc.extractors
        { wc with inodesVisited := wc.inodesVisited + 1 } _ _

/-- handleFile returns the inode-budget error precisely when the budget is
enabled and the just-incremented counter exceeds it, and the reported budget
is the configured maximum. -/
theorem handleFile_budget_iff (wc : WalkContext) (e : FileEntry) (m : Nat) :
    (handleFile wc e).2 = .fatal (.inodeBudgetExceeded m) ↔
      (0 < wc.maxInodes ∧ wc.maxInodes < wc.inodesVisited + 1 ∧ m = wc.maxInodes) := by
  unfold handleFile
  dsimp only
  repeat' split
  all_goals simp_all
  all_goals omega

/-- When the budget triggers, handleFile stops with exactly the incremented
counter and no other state change. -/
theorem handleFile_budget_eq (wc : WalkContext) (e : FileEntry)
    (h1 : 0 < wc.maxInodes) (h2 : wc.maxInodes < wc.inodesVisited + 1) :
    handleFile wc e =
      ({ wc with inodesVisited := wc.inodesVisited + 1 },
       .fatal (.inodeBudgetExceeded wc.maxInodes)) := by
  unfold handleFile
  dsimp only
  rw [if_pos]
  exact ⟨h1, h2⟩

/-- When the budget does not trigger and the context is already cancelled,
handleFile stops with the cancellation error and only the incremented
counter. -/
theorem handleFile_cancelled_eq (wc : WalkContext) (e : FileEntry)
    (hb : ¬(0 < wc.maxInodes ∧ wc.maxInodes < wc.inodesVisited + 1))
    (hc : wc.cancelled = true) :
    handleFile wc e =
      ({ wc with inodesVisited := wc.inodesVisited + 1 }, .fatal .cancelledErr) := by
  unfold handleFile
  dsimp only
  rw [if_neg hb, if_pos hc]

/-- With an empty skip set and no skip regex, no directory is skipped. -/
theorem shouldSkipDir_empty (wc : WalkContext) (p : String)
    (hd : wc.dirsToSkip = []) (hr : wc.skipDirRegex = none) :
    shouldSkipDir wc p = false := by
  unfold shouldSkipDir
  rw [hd, hr]
  simp

/-- When neither the budget nor an already-cancelled context stops the
handler, an entry with a filesystem error is swallowed: the handler
continues after only incrementing the counter. -/
theorem handleFile_fserr_eq (wc : WalkContext) (e : FileEntry) (ioerr : String)
    (hb : ¬(0 < wc.maxInodes ∧ wc.maxInodes < wc.inodesVisited + 1))
    (hc : wc.cancelled = false)
    (hio : e.fserr = some ioerr) :
    handleFile wc e = ({ wc with inodesVisited := wc.inodesVisited + 1 }, .cont) := by
  unfold handleFile
  dsimp only
  rw [if_neg hb, if_neg (by simp [hc]), hio]

/-- Under a no-cancellation, no-skip configuration, a handler invocation
that stays within the budget always continues, and the result context stays
uncancelled. -/
theorem handleFile_good_cont (wc : WalkContext) (e : FileEntry)
    (hb : ¬(0 < wc.maxInodes ∧ wc.maxInodes < wc.inodesVisited + 1))
    (hc : wc.cancelled = false)
    (hnc : ∀ ex ∈ wc.extractors, ∀ inp, (ex.extract inp).cancels = false)
    (hd : wc.dirsToSkip = []) (hr : wc.skipDirRegex = none) :
    (handleFile wc e).2 = .cont ∧ (handleFile wc e).1.cancelled = false := by
  unfold handleFile
  dsimp only
  rw [if_neg hb, if_neg (by simp [hc])]
  rcases e.fserr with _ | ioerr
  · dsimp only
    split
    · rw [if_neg (by rw [shouldSkipDir_empty _ _ (by exact hd) (by exact hr)]; simp)]
      exact ⟨rfl, hc⟩
    · split
      · exact ⟨rfl, hc⟩
      · split
        · exact ⟨rfl, hc⟩
        · refine ⟨rfl, ?_⟩
          rw [foldl_runExtractor_cancelled _ _ _ _ hnc]
          exact hc
  · exact ⟨rfl, hc⟩

/-- Unfolding equation of walkFrom with no pending skip. -/
theorem walkFrom_cons_none (wc : WalkContext) (e : FileEntry) (rest : List FileEntry) :
    walkFrom wc none (e :: rest) =
      (match handleFile wc e with
       | (wc1, .fatal err) => (wc1, some err)
       | (wc1, .skipDirRes) => walkFrom wc1 (some e.path) rest
       | (wc1, .cont) => walkFrom wc1 none rest) := rfl

/-- Under a no-cancellation, no-skip configuration, a walk that starts
within budget and observes more entries than the remaining budget ends with
the inode-budget error, with the counter one past the maximum. -/
theorem walk_budget_aux (entries : List FileEntry) :
    ∀ wc : WalkContext,
      0 < wc.maxInodes →
      wc.cancelled = false →
      (∀ ex ∈ wc.extractors, ∀ inp, (ex.extract inp).cancels = false) →
      wc.dirsToSkip = [] →
      wc.skipDirRegex = none →
      wc.inodesVisited ≤ wc.maxInodes →
      wc.maxInodes + 1 ≤ wc.inodesVisited + entries.length →
      (walkFrom wc none entries).2 = some (.inodeBudgetExceeded wc.maxInodes) ∧
      (walkFrom wc none entries).1.inodesVisited = wc.maxInodes + 1 := by
  induction entries with
  | nil =>
    intro wc h1 h2 h3 h4 h5 h6 h7
    exfalso
    simp only [List.length_nil] at h7
    omega
  | cons e rest ih =>
    intro wc h1 h2 h3 h4 h5 h6 h7
    rw [walkFrom_cons_none]
    by_cases hover : wc.maxInodes < wc.inodesVisited + 1
    · rw [handleFile_budget_eq wc e h1 hover]
      refine ⟨rfl, ?_⟩
      have : wc.inodesVisited = wc.maxInodes := by omega
      simp [this]
    · have hb : ¬(0 < wc.maxInodes ∧ wc.maxInodes < wc.inodesVisited + 1) :=
        fun hcontra => hover hcontra.2
      have hcont := handleFile_good_cont wc e hb h2 h3 h4 h5
      have hbasic := handleFile_basic wc e
      rcases hh : handleFile wc e with ⟨wc1, r⟩
      rw [hh] at hcont hbasic
      have hr : r = .cont := hcont.1
      subst hr
      dsimp only
      obtain ⟨e1, e2, e3, _, _, e6, e7, _, _⟩ := hbasic
      have hrec := ih wc1 (by rw [e2]; exact h1) hcont.2
        (by rw [e3]; exact h3) (by rw [e6]; exact h4) (by rw [e7]; exact h5)
        (by rw [e1, e2]; omega)
        (by rw [e1, e2]; simp only [List.length_cons] at h7; omega)
      rw [e2] at hrec
      exact hrec

/-- Unfolding equation of walkFrom for an arbitrary pending skip. -/
theorem walkFrom_cons (wc : WalkContext) (skp : Option String) (e : FileEntry)
    (rest : List FileEntry) :
    walkFrom wc skp (e :: rest) =
      (if (match skp with
           | some d => strHasPrefix e.path (d ++ ("/"))
           | none => false) then
        walkFrom wc skp rest
      else
        match handleFile wc e with
        | (wc1, .fatal err) => (wc1, some err)
        | (wc1, .skipDirRes) => walkFrom wc1 (some e.path) rest
        | (wc1, .cont) => walkFrom wc1 none rest) := rfl

/-- A walk whose budget is disabled, or that observes no more entries than
the remaining budget allows, never returns the inode-budget error. -/
theorem walk_no_budget (entries : List FileEntry) :
    ∀ (wc : WalkContext) (skp : Option String) (m : Nat),
      (wc.maxInodes = 0 ∨ wc.inodesVisited + entries.length ≤ wc.maxInodes) →
      (walkFrom wc skp entries).2 ≠ some (.inodeBudgetExceeded m) := by
  induction entries with
  | nil =>
    intro wc skp m _ hcontra
    simp [walkFrom] at hcontra
  | cons e rest ih =>
    intro wc skp m hbound
    simp only [List.length_cons] at hbound
    rw [walkFrom_cons]
    split
    · refine ih wc skp m ?_
      rcases hbound with h0 | hle
      · exact Or.inl h0
      · exact Or.inr (by omega)
    · have hbasic := handleFile_basic wc e
      rcases hh : handleFile wc e with ⟨wc1, r⟩
      rw [hh] at hbasic
      obtain ⟨e1, e2, _⟩ := hbasic
      have hbound1 : wc1.maxInodes = 0 ∨ wc1.inodesVisited + rest.length ≤ wc1.maxInodes := by
        rcases hbound with h0 | hle
        · exact Or.inl (by rw [e2]; exact h0)
        · exact Or.inr (by rw [e1, e2]; omega)
      cases r with
      | fatal err =>
        dsimp only
        intro heq
        have herr : err = .inodeBudgetExceeded m := by
          simpa using heq
        have hiff := (handleFile_budget_iff wc e m).mp (by rw [hh, herr])
        rcases hbound with h0 | hle
        · omega
        · omega
      | skipDirRes =>
        dsimp only
        exact ih wc1 (some e.path) m hbound1
      | cont =>
        dsimp only
        exact ih wc1 none m hbound1

/-- Claim C1: with max_inodes = N > 0, the per-entry handler first
increments inodes_visited and aborts with the inode-budget error exactly
when the incremented count exceeds N; a walk observing at least N+1 entries
(under a configuration where nothing else stops it first) ends with the
budget error and inodes_visited = N+1; a walk observing at most N entries
never raises the budget error; and max_inodes = 0 disables the budget. -/
theorem claim_C1_inode_budget (N : Nat) (hN : 0 < N) :
    (∀ (wc : WalkContext) (e : FileEntry), wc.maxInodes = N →
      ((handleFile wc e).1.inodesVisited = wc.inodesVisited + 1 ∧
       ((handleFile wc e).2 = .fatal (.inodeBudgetExceeded N) ↔ N < wc.inodesVisited + 1))) ∧
    (∀ (wc : WalkContext) (entries : List FileEntry),
      wc.maxInodes = N → wc.inodesVisited = 0 → wc.cancelled = false →
      (∀ ex ∈ wc.extractors, ∀ inp, (ex.extract inp).cancels = false) →
      wc.dirsToSkip = [] → wc.skipDirRegex = none →
      N + 1 ≤ entries.length →
      ((walkEntries wc entries).2 = some (.inodeBudgetExceeded N) ∧
       (walkEntries wc entries).1.inodesVisited = N + 1)) ∧
    (∀ (wc : WalkContext) (entries : List FileEntry) (m : Nat),
      wc.maxInodes = N → wc.inodesVisited + entries.length ≤ N →
      (walkEntries wc entries).2 ≠ some (.inodeBudgetExceeded m)) ∧
    (∀ (wc : WalkContext) (entries : List FileEntry) (m : Nat),
      wc.maxInodes = 0 →
      (walkEntries wc entries).2 ≠ some (.inodeBudgetExceeded m)) := by
  refine ⟨?_, ?_, ?_, ?_⟩
  · intro wc e hmax
    refine ⟨(handleFile_basic wc e).1, ?_⟩
    rw [handleFile_budget_iff]
    constructor
    · rintro ⟨_, hlt, _⟩
      omega
    · intro hlt
      exact ⟨by omega, by omega, hmax.symm⟩
  · intro wc entries hmax h0 hc hnc hd hr hlen
    have h := walk_budget_aux entries wc (by rw [hmax]; exact hN) hc hnc hd hr
      (by omega) (by rw [hmax, h0]; omega)
    rw [hmax] at h
    exact h
  · intro wc entries m hmax hbound
    exact walk_no_budget entries wc none m (Or.inr (by omega))
  · intro wc entries m hmax
    exact walk_no_budget entries wc none m (Or.inl hmax)

/-- Witness for C1: a budget of two on a ten-entry tree of regular files
ends with the inode-budget error and three visited inodes. -/
theorem claim_C1_inode_budget_witness :
    (walkEntries wcBudget2 entriesTen).2 = some (.inodeBudgetExceeded 2) ∧
    (walkEntries wcBudget2 entriesTen).1.inodesVisited = 3 := by
  have h := (claim_C1_inode_budget 2 (by decide)).2.1 wcBudget2 entriesTen rfl rfl rfl
    (by intro ex hx; exact absurd hx (by simp [wcBudget2, baseWC])) rfl rfl (by decide)
  exact h

/-- Claim C7: an entry with a filesystem I/O error (permission errors
included) is swallowed by the per-entry handler — provided nothing else
(budget, cancellation) stops the walk at that entry, the handler returns
without error, the walk continues with the remaining entries as if only the
inode counter had moved, and the I/O error never becomes the walk error. -/
theorem claim_C7_io_error_swallowed (wc : WalkContext) (e : FileEntry)
    (rest : List FileEntry) (ioerr : String)
    (hio : e.fserr = some ioerr)
    (hb : wc.maxInodes = 0 ∨ wc.inodesVisited + 1 ≤ wc.maxInodes)
    (hc : wc.cancelled = false) :
    (handleFile wc e).2 = .cont ∧
    walkEntries wc (e :: rest) =
      walkEntries { wc with inodesVisited := wc.inodesVisited + 1 } rest := by
  have hbudget : ¬(0 < wc.maxInodes ∧ wc.maxInodes < wc.inodesVisited + 1) := by
    rcases hb with h0 | hle
    · omega
    · omega
  have heq := handleFile_fserr_eq wc e ioerr hbudget hc hio
  constructor
  · rw [heq]
  · show walkFrom wc none (e :: rest) = walkFrom _ none rest
    rw [walkFrom_cons_none, heq]

/-- Witness for C7: a permission-denied directory entry is swallowed and
the walk proceeds to the sibling file. -/
theorem claim_C7_io_error_swallowed_witness :
    (handleFile baseWC ePerm).2 = .cont ∧
    walkEntries baseWC [ePerm, mkFile ("sib.txt")] =
      walkEntries { baseWC with inodesVisited := 1 } [mkFile ("sib.txt")] := by
  have h := claim_C7_io_error_swallowed baseWC ePerm [mkFile ("sib.txt")]
    ("permission denied") rfl (Or.inl rfl) rfl
  exact h

/-- Counterexample for C3: two extractors are active for one file; the scan
context gets cancelled during the first extractor's run (the final context
is cancelled), yet the second extractor is still invoked — both extract
calls are counted and the second extractor's inventory flag is set — and the
walk of this single entry even completes without error.  This refutes the
claim that once cancellation occurs during one extractor's run the remaining
extractors for the same file are not invoked. -/
theorem claim_C3_counterexample :
    (walkEntries wcC3 [mkFile ("file.txt")]).1.cancelled = true ∧
    (walkEntries wcC3 [mkFile ("file.txt")]).1.extractCalls = 2 ∧
    (walkEntries wcC3 [mkFile ("file.txt")]).1.foundInv ("B") = true ∧
    (walkEntries wcC3 [mkFile ("file.txt")]).2 = none := by decide

/-- Claim C3 amended: the cancellation token is checked once per entry,
inside the entry handler before the dispatch loop — a walk whose context is
already cancelled stops at the next entry with the cancellation error and
dispatches no extractor for it — but the dispatch of an individual extractor
never consults the token: the outcome of runExtractor (extract call
counting, inventory, errors, found-inventory) is independent of the
cancellation flag, so the remaining extractors for the current file are
still invoked after a mid-file cancellation. -/
theorem claim_C3_cancellation_amended :
    (∀ (wc : WalkContext) (e : FileEntry) (rest : List FileEntry),
      wc.cancelled = true →
      (wc.maxInodes = 0 ∨ wc.inodesVisited + 1 ≤ wc.maxInodes) →
      walkEntries wc (e :: rest) =
        ({ wc with inodesVisited := wc.inodesVisited + 1 }, some FatalErr.cancelledErr)) ∧
    (∀ (wc : WalkContext) (ex : ExtractorM) (p : String) (fi : FInfoM) (b : Bool),
      ((runExtractor { wc with cancelled := b } ex p fi).extractCalls =
         (runExtractor wc ex p fi).extractCalls ∧
       (runExtractor { wc with cancelled := b } ex p fi).inventory =
         (runExtractor wc ex p fi).inventory ∧
       (runExtractor { wc with cancelled := b } ex p fi).errors =
         (runExtractor wc ex p fi).errors ∧
       (runExtractor { wc with cancelled := b } ex p fi).foundInv =
         (runExtractor wc ex p fi).foundInv)) := by
  constructor
  · intro wc e rest hc hb
    have hbudget : ¬(0 < wc.maxInodes ∧ wc.maxInodes < wc.inodesVisited + 1) := by
      rcases hb with h0 | hle
      · omega
      · omega
    show walkFrom wc none (e :: rest) = _
    rw [walkFrom_cons_none, handleFile_cancelled_eq wc e hbudget hc]
  · intro wc ex p fi b
    unfold runExtractor
    dsimp only
    repeat' split
    all_goals exact ⟨rfl, rfl, rfl, rfl⟩

/-- Witness for the amended C3: a walk whose context is already cancelled
stops at the first entry with the cancellation error. -/
theorem claim_C3_cancellation_amended_witness :
    walkEntries { baseWC with cancelled := true } [mkFile ("g.txt")] =
      ({ baseWC with cancelled := true, inodesVisited := 1 },
       some FatalErr.cancelledErr) := by
  have h := claim_C3_cancellation_amended.1 { baseWC with cancelled := true }
    (mkFile ("g.txt")) [] rfl (Or.inl rfl)
  exact h

/-- Recording further errors onto an existing chain extends the chain at the
end, and never touches other keys. -/
theorem recordErrs_some (rest : List String) :
    ∀ (m : String → Option String) (key s : String), m key = some s →
      ((recordErrs m key rest) key = some (chainMsg s rest) ∧
       ∀ k, k ≠ key → recordErrs m key rest k = m k) := by
  induction rest with
  | nil =>
    intro m key s h
    exact ⟨h, fun k _ => rfl⟩
  | cons e rest ih =>
    intro m key s h
    have hstep : addErrToMap m key e key = some (s ++ ("\n") ++ e) := by
      unfold addErrToMap
      rw [if_pos rfl, h]
    have hrec := ih (addErrToMap m key e) key (s ++ ("\n") ++ e) hstep
    refine ⟨hrec.1, ?_⟩
    intro k hk
    have : addErrToMap m key e k = m k := by
      unfold addErrToMap
      rw [if_neg hk]
    rw [show recordErrs m key (e :: rest) = recordErrs (addErrToMap m key e) key rest from rfl,
        hrec.2 k hk, this]

/-- Every seed and every listed error is a contiguous substring of the
newline-joined chain. -/
theorem chainMsg_infix (rest : List String) :
    ∀ s : String,
      (s.data <:+: (chainMsg s rest).data ∧
       ∀ x ∈ rest, x.data <:+: (chainMsg s rest).data) := by
  induction rest with
  | nil =>
    intro s
    exact ⟨List.infix_refl s.data, by intro x hx; cases hx⟩
  | cons e rest ih =>
    intro s
    have hchain : chainMsg s (e :: rest) = chainMsg (s ++ ("\n") ++ e) rest := rfl
    obtain ⟨h1, h2⟩ := ih (s ++ ("\n") ++ e)
    have hdata : (s ++ ("\n") ++ e).data = s.data ++ ("\n").data ++ e.data := by
      rw [String.data_append, String.data_append]
    have hs : s.data <:+: (s ++ ("\n") ++ e).data := by
      rw [hdata]
      exact ((s.data.prefix_append (("\n").data ++ e.data)).isInfix).trans
        (by rw [List.append_assoc])
    have he : e.data <:+: (s ++ ("\n") ++ e).data := by
      rw [hdata]
      exact (List.suffix_append (s.data ++ ("\n").data) e.data).isInfix
    refine ⟨?_, ?_⟩
    · rw [hchain]
      exact hs.trans h1
    · intro x hx
      rw [hchain]
      rcases hx with _ | hx2
      · exact he.trans h1
      · exact h2 x (by assumption)

/-- Claim C4: recording a sequence of per-file errors for one plugin leaves
exactly one chained error under that plugin's key, whose message is the
newline-joined concatenation of all recorded errors in recording order; no
other key is touched, and every recorded error survives as a contiguous
substring of the chain. -/
theorem claim_C4_error_chaining (m : String → Option String) (key e0 : String)
    (rest : List String) (h : m key = none) :
    ((recordErrs m key (e0 :: rest)) key = some (chainMsg e0 rest) ∧
     (∀ k, k ≠ key → recordErrs m key (e0 :: rest) k = m k) ∧
     (∀ x ∈ e0 :: rest, x.data <:+: (chainMsg e0 rest).data)) := by
  have hstep : addErrToMap m key e0 key = some e0 := by
    unfold addErrToMap
    rw [if_pos rfl, h]
  have hrec := recordErrs_some rest (addErrToMap m key e0) key e0 hstep
  have hinf := chainMsg_infix rest e0
  refine ⟨hrec.1, ?_, ?_⟩
  · intro k hk
    have hother : addErrToMap m key e0 k = m k := by
      unfold addErrToMap
      rw [if_neg hk]
    rw [show recordErrs m key (e0 :: rest) = recordErrs (addErrToMap m key e0) key rest
          from rfl,
        hrec.2 k hk, hother]
  · intro x hx
    rcases hx with _ | hx2
    · exact hinf.1
    · exact hinf.2 x (by assumption)

/-- Witness for C4: two per-file failures of the same plugin on distinct
files yield one chained error containing both file paths. -/
theorem claim_C4_error_chaining_witness :
    recordErrs (fun _ => none) ("plugin") [("a.txt: boom"), ("b.txt: boom")] ("plugin") =
      some ("a.txt: boom\nb.txt: boom") ∧
    ("a.txt").data <:+: ("a.txt: boom\nb.txt: boom" : String).data ∧
    ("b.txt").data <:+: ("a.txt: boom\nb.txt: boom" : String).data := by
  have h := claim_C4_error_chaining (fun _ => none) ("plugin") ("a.txt: boom")
    [("b.txt: boom")] rfl
  refine ⟨by rw [h.1]; decide, ?_, ?_⟩
  · decide
  · decide

/-- Claim C5: when an extractor returns both a non-empty inventory list and
an error, the dispatcher records the error under the plugin's name and still
appends every returned record to the global inventory, with the originating
plugin set (and locations made absolute when configured), and marks the
plugin as having found inventory; the extract call is counted.  The partial
results are not discarded. -/
theorem claim_C5_partial_results (wc : WalkContext) (ex : ExtractorM) (p : String)
    (fi info : FInfoM) (e : String)
    (hreq : ex.fileRequired p fi = true)
    (hopen : wc.fsys.openRes p = Except.ok ())
    (hstat : wc.fsys.openStatRes p = Except.ok info)
    (herr : (ex.extract { path := p, scanRoot := wc.scanRoot, info := info }).err = some e)
    (hres : (ex.extract { path := p, scanRoot := wc.scanRoot, info := info }).results ≠ []) :
    ((runExtractor wc ex p fi).errors =
       addErrToMap wc.errors ex.name (p ++ (": ") ++ e) ∧
     (runExtractor wc ex p fi).foundInv ex.name = true ∧
     (∀ n, n ≠ ex.name → (runExtractor wc ex p fi).foundInv n = wc.foundInv n) ∧
     (runExtractor wc ex p fi).inventory =
       wc.inventory ++
         (ex.extract { path := p, scanRoot := wc.scanRoot, info := info }).results.map
           (fun r =>
             { r with
               extractor := some ex.name,
               locations :=
                 if wc.storeAbsolutePath then expandAbsolutePath wc.scanRoot r.locations
                 else r.locations }) ∧
     (runExtractor wc ex p fi).extractCalls = wc.extractCalls + 1) := by
  unfold runExtractor
  rw [hreq]
  simp only [Bool.true_eq_false, if_false, hopen, hstat]
  rw [herr]
  rw [if_pos (by exact List.length_pos.mpr hres)]
  refine ⟨rfl, by simp, ?_, rfl, rfl⟩
  intro n hn
  exact if_neg hn

/-- Witness for C5: an extractor that errors but returns one record gets
the error recorded and the record appended with the plugin set. -/
theorem claim_C5_partial_results_witness :
    (runExtractor baseWC exPartial ("a.txt") FType.regular).errors ("E") =
      some ("a.txt: boom") ∧
    (runExtractor baseWC exPartial ("a.txt") FType.regular).foundInv ("E") = true ∧
    (runExtractor baseWC exPartial ("a.txt") FType.regular).inventory =
      [{ name := ("pkg"), version := ("1"), locations := [("a.txt")],
         extractor := some ("E") }] ∧
    (runExtractor baseWC exPartial ("a.txt") FType.regular).extractCalls = 1 := by
  have h := claim_C5_partial_results baseWC exPartial ("a.txt") FType.regular
    FType.regular ("boom") rfl rfl rfl rfl (by decide)
  refine ⟨?_, h.2.1, ?_, ?_⟩
  · rw [h.1]
    decide
  · rw [h.2.2.2.1]
    decide
  · rw [h.2.2.2.2]
    decide

/-- getD of a mapped list at an in-range index, for unrelated defaults. -/
theorem getD_map_lt {α β : Type} (f : α → β) (l : List α) :
    ∀ (i : Nat), i < l.length → ∀ (d : α) (d2 : β),
      (l.map f).getD i d2 = f (l.getD i d) := by
  induction l with
  | nil =>
    intro i hi
    simp at hi
  | cons x xs ih =>
    intro i hi d d2
    cases i with
    | zero => rfl
    | succ n =>
      simp only [List.map_cons, List.getD_cons_succ]
      exact ih n (by simpa using hi) d d2

/-- The status truth table of statusFromErr, plus identity passthrough. -/
theorem statusFromErr_table (ex : ExtractorM) (b : Bool) (e : Option String) :
    (statusFromErr ex b e).name = ex.name ∧
    (statusFromErr ex b e).version = ex.version ∧
    ((statusFromErr ex b e).state = ScanState.succeeded ↔ (b = true ∧ e = none)) ∧
    ((statusFromErr ex b e).state = ScanState.partiallyFailed ↔ (b = true ∧ e ≠ none)) ∧
    ((statusFromErr ex b e).state = ScanState.noResults ↔ (b = false ∧ e = none)) ∧
    ((statusFromErr ex b e).state = ScanState.failed ↔ (b = false ∧ e ≠ none)) := by
  cases b <;> cases e <;> simp [statusFromErr]

/-- Claim C2: a status object is produced for every configured extractor
(one per extractor, in order, whether or not it observed any file), and the
i-th status carries the i-th extractor's identity with its state derived
from the (found_inv, errors) pair exactly per the truth table. -/
theorem claim_C2_status_table (exs : List ExtractorM) (fI : String → Bool)
    (errs : String → Option String) :
    (errToExtractorStatus exs fI errs).length = exs.length ∧
    ∀ i, i < exs.length →
      ((errToExtractorStatus exs fI errs).getD i dummyStatus).name =
        (exs.getD i dummyEx).name ∧
      ((errToExtractorStatus exs fI errs).getD i dummyStatus).version =
        (exs.getD i dummyEx).version ∧
      (((errToExtractorStatus exs fI errs).getD i dummyStatus).state = ScanState.succeeded ↔
        (fI (exs.getD i dummyEx).name = true ∧ errs (exs.getD i dummyEx).name = none)) ∧
      (((errToExtractorStatus exs fI errs).getD i dummyStatus).state = ScanState.partiallyFailed ↔
        (fI (exs.getD i dummyEx).name = true ∧ errs (exs.getD i dummyEx).name ≠ none)) ∧
      (((errToExtractorStatus exs fI errs).getD i dummyStatus).state = ScanState.noResults ↔
        (fI (exs.getD i dummyEx).name = false ∧ errs (exs.getD i dummyEx).name = none)) ∧
      (((errToExtractorStatus exs fI errs).getD i dummyStatus).state = ScanState.failed ↔
        (fI (exs.getD i dummyEx).name = false ∧ errs (exs.getD i dummyEx).name ≠ none)) := by
  refine ⟨by simp [errToExtractorStatus], ?_⟩
  intro i hi
  have hmap : (errToExtractorStatus exs fI errs).getD i dummyStatus =
      statusFromErr (exs.getD i dummyEx) (fI (exs.getD i dummyEx).name)
        (errs (exs.getD i dummyEx).name) := by
    exact getD_map_lt _ exs i hi dummyEx dummyStatus
  rw [hmap]
  exact statusFromErr_table (exs.getD i dummyEx) (fI (exs.getD i dummyEx).name)
    (errs (exs.getD i dummyEx).name)

/-- Witness for C2: a one-extractor configuration where the plugin found
inventory and also recorded an error is PartiallyFailed. -/
theorem claim_C2_status_table_witness :
    (errToExtractorStatus [exPartial] (fun _ => true) (fun _ => some ("x")) ).length = 1 ∧
    ((errToExtractorStatus [exPartial] (fun _ => true) (fun _ => some ("x"))).getD 0
       dummyStatus).state = ScanState.partiallyFailed := by
  have h := claim_C2_status_table [exPartial] (fun _ => true) (fun _ => some ("x"))
  refine ⟨h.1, ?_⟩
  have h0 := (h.2 0 (by decide)).2.2.2.1
  exact h0.mpr ⟨rfl, by simp⟩

/-- Claim C8: capability filtering keeps exactly the plugins that pass the
requirements gate, preserves relative order (each filtered list is a
sublist of its input), and is idempotent: filtering an already-filtered
triple under the same capabilities returns it unchanged. -/
theorem claim_C8_capability_gate (f s d : List Plug) (capab : Capabilities) :
    (∀ p, p ∈ (filterByCapabilities f s d capab).1 ↔
       (p ∈ f ∧ validateRequirements p.reqs capab = true)) ∧
    (∀ p, p ∈ (filterByCapabilities f s d capab).2.1 ↔
       (p ∈ s ∧ validateRequirements p.reqs capab = true)) ∧
    (∀ p, p ∈ (filterByCapabilities f s d capab).2.2 ↔
       (p ∈ d ∧ validateRequirements p.reqs capab = true)) ∧
    (filterByCapabilities f s d capab).1.Sublist f ∧
    (filterByCapabilities f s d capab).2.1.Sublist s ∧
    (filterByCapabilities f s d capab).2.2.Sublist d ∧
    filterByCapabilities (filterByCapabilities f s d capab).1
      (filterByCapabilities f s d capab).2.1
      (filterByCapabilities f s d capab).2.2 capab =
      filterByCapabilities f s d capab := by
  unfold filterByCapabilities
  refine ⟨?_, ?_, ?_, ?_, ?_, ?_, ?_⟩
  · intro p
    exact List.mem_filter
  · intro p
    exact List.mem_filter
  · intro p
    exact List.mem_filter
  · exact List.filter_sublist f
  · exact List.filter_sublist s
  · exact List.filter_sublist d
  · simp [List.filter_filter, Bool.and_self]

/-- Witness for C8 at a concrete configuration: refiltering the filtered
plugin triple under the same capabilities changes nothing. -/
theorem claim_C8_capability_gate_witness :
    filterByCapabilities
      (filterByCapabilities
        [{ name := ("m"), version := 0,
           reqs := { os := OSTag.mac, network := false, directFS := false, runningSystem := false } },
         { name := ("n"), version := 0,
           reqs := { os := OSTag.anyOS, network := true, directFS := false, runningSystem := false } }]
        [] []
        { os := OSTag.mac, network := false, directFS := true, runningSystem := true }).1
      (filterByCapabilities
        [{ name := ("m"), version := 0,
           reqs := { os := OSTag.mac, network := false, directFS := false, runningSystem := false } },
         { name := ("n"), version := 0,
           reqs := { os := OSTag.anyOS, network := true, directFS := false, runningSystem := false } }]
        [] []
        { os := OSTag.mac, network := false, directFS := true, runningSystem := true }).2.1
      (filterByCapabilities
        [{ name := ("m"), version := 0,
           reqs := { os := OSTag.mac, network := false, directFS := false, runningSystem := false } },
         { name := ("n"), version := 0,
           reqs := { os := OSTag.anyOS, network := true, directFS := false, runningSystem := false } }]
        [] []
        { os := OSTag.mac, network := false, directFS := true, runningSystem := true }).2.2
      { os := OSTag.mac, network := false, directFS := true, runningSystem := true } =
    filterByCapabilities
      [{ name := ("m"), version := 0,
         reqs := { os := OSTag.mac, network := false, directFS := false, runningSystem := false } },
       { name := ("n"), version := 0,
         reqs := { os := OSTag.anyOS, network := true, directFS := false, runningSystem := false } }]
      [] []
      { os := OSTag.mac, network := false, directFS := true, runningSystem := true } := by
  exact (claim_C8_capability_gate
    [{ name := ("m"), version := 0,
       reqs := { os := OSTag.mac, network := false, directFS := false, runningSystem := false } },
     { name := ("n"), version := 0,
       reqs := { os := OSTag.anyOS, network := true, directFS := false, runningSystem := false } }]
    [] []
    { os := OSTag.mac, network := false, directFS := true, runningSystem := true }).2.2.2.2.2.2

/-- filepath.Rel succeeds on two absolute paths when the base contains no
dot-dot component. -/
theorem relGo_ok (base targ : String)
    (hb : isAbsPath base = true) (ht : isAbsPath targ = true)
    (hdd : ("..") ∉ components base) :
    ∃ rel, relGo base targ = Except.ok rel := by
  unfold relGo
  rw [hb, ht, if_neg (by simp)]
  dsimp only
  by_cases heq : components base = components targ
  · rw [if_pos heq]
    exact ⟨_, rfl⟩
  · rw [if_neg heq]
    have hhead :
        ((components base).drop (commonLen (components base) (components targ))).head? ≠
          some ("..") := by
      intro hcontra
      rcases hdrop : (components base).drop (commonLen (components base) (components targ)) with
        _ | ⟨y, ys⟩
      · rw [hdrop] at hcontra
        cases hcontra
      · rw [hdrop] at hcontra
        have hy : y = (("..") : String) := by
          injection hcontra
        have hmem : (("..") : String) ∈ (components base).drop
            (commonLen (components base) (components targ)) := by
          rw [hdrop, hy]
          exact List.mem_cons_self _ _
        exact hdd (List.mem_of_mem_drop hmem)
    rw [if_neg hhead]
    exact ⟨_, rfl⟩

/-- Claim C6: path resolution relative to a list of absolute scan roots
returns the candidate made relative (by filepath.Rel) to the first root in
list order whose string is a prefix of the candidate, and fails with
NotRelativeToScanRoots exactly when no root is a string prefix. -/
theorem claim_C6_path_resolution (path : String) (roots : List String)
    (hp : isAbsPath path = true)
    (hroots : ∀ r ∈ roots, (isAbsPath r = true ∧ ("..") ∉ components r)) :
    (( stripFromAtLeastOnePre path roots = Except.error PathErr.notRelativeToScanRoots) ↔
       roots.find? (fun r => strHasPrefix path r) = none) ∧
    (∀ r, roots.find? (fun r => strHasPrefix path r) = some r →
       ( stripFromAtLeastOnePre path roots = relGo r path ∧
         ∃ rel, relGo r path = Except.ok rel ∧
           stripFromAtLeastOnePre path roots = Except.ok rel)) := by
  revert hroots
  induction roots with
  | nil =>
    intro hroots
    refine ⟨by simp [ stripFromAtLeastOnePre], ?_⟩
    intro r hr
    simp at hr
  | cons root rest ih =>
    intro hroots
    have hroot := hroots root (by simp)
    have hrest : ∀ r ∈ rest, (isAbsPath r = true ∧ ("..") ∉ components r) :=
      fun r hr => hroots r (List.mem_cons_of_mem _ hr)
    by_cases hpre : strHasPrefix path root = true
    · have hfind : (root :: rest).find? (fun r => strHasPrefix path r) = some root :=
        List.find?_cons_of_pos _ hpre
      have hstrip : stripFromAtLeastOnePre path (root :: rest) = relGo root path := by
        unfold stripFromAtLeastOnePre
        rw [if_pos hpre]
      obtain ⟨rel, hrel⟩ := relGo_ok root path hroot.1 hp hroot.2
      refine ⟨?_, ?_⟩
      · rw [hfind, hstrip, hrel]
        simp
      · intro r hr
        rw [hfind] at hr
        have hr2 : root = r := by injection hr
        subst hr2
        exact ⟨hstrip, rel, hrel, hstrip.trans hrel⟩
    · have hfind : (root :: rest).find? (fun r => strHasPrefix path r) =
          rest.find? (fun r => strHasPrefix path r) :=
        List.find?_cons_of_neg _ (by simpa using hpre)
      have hstrip : stripFromAtLeastOnePre path (root :: rest) =
          stripFromAtLeastOnePre path rest := by
        show (if strHasPrefix path root = true then relGo root path
              else stripFromAtLeastOnePre path rest) =
          stripFromAtLeastOnePre path rest
        rw [if_neg (by simpa using hpre)]
      rw [hstrip, hfind]
      exact ih hrest

/-- Witness for C6: a candidate under the second listed root resolves
against that root. -/
theorem claim_C6_path_resolution_witness :
    stripFromAtLeastOnePre ("/root/a/b.txt") [("/x"), ("/root")] =
      relGo ("/root") ("/root/a/b.txt") ∧
    stripFromAtLeastOnePre ("/q/r") [("/x"), ("/root")] =
      Except.error PathErr.notRelativeToScanRoots := by
  have h1 := claim_C6_path_resolution ("/root/a/b.txt") [("/x"), ("/root")] rfl
    (by intro r hr; fin_cases hr <;> exact ⟨rfl, by decide⟩)
  have h2 := claim_C6_path_resolution ("/q/r") [("/x"), ("/root")] rfl
    (by intro r hr; fin_cases hr <;> exact ⟨rfl, by decide⟩)
  refine ⟨(h1.2 ("/root") (by decide)).1, h2.1.mpr (by decide)⟩

/-- Claim C9: with the homebrew receipt extractor as sole active extractor
and a walked tree containing the regular file
cellar/tree/1.1/install_receipt.json, FileRequired accepts the path,
Extract succeeds, and the run produces exactly one inventory record with
name tree, version 1.1 and that single location, with the plugin's final
status Succeeded and no walk error. -/
theorem claim_C9_homebrew_scenario :
    hbFileRequired ("cellar/tree/1.1/install_receipt.json") FType.regular = true ∧
    (hbExtract { path := ("cellar/tree/1.1/install_receipt.json"),
                 scanRoot := ("/tmp/fixtures/A"), info := FType.regular }).err = none ∧
    runFS wc9 entries9 =
      ([{ name := ("tree"), version := ("1.1"),
          locations := [("cellar/tree/1.1/install_receipt.json")],
          extractor := some ("os/homebrew") }],
       [{ name := ("os/homebrew"), version := 0, state := ScanState.succeeded }],
       none) := by decide

/-- Claim C10: the prefix match of path resolution has no path-separator
boundary requirement, so the absolute candidate /a/bc is accepted against
the root /a/b and resolves without error to ../bc, a relative path that
escapes the matched root. -/
theorem claim_C10_prefix_escape :
    isAbsPath ("/a/bc") = true ∧
    stripFromAtLeastOnePre ("/a/bc") [("/a/b")] = Except.ok ("../bc") ∧
    strHasPrefix ("../bc") ("..") = true := ⟨rfl, rfl, rfl⟩
